import Mathlib

/-!
# Verification of `mid2seq.c`

A shallow embedding of the MIDI-to-SEQ converter `src/mid2seq.c`, together with
theorems settling the specification claims about it.

Modelling conventions:
* C `uint32_t` values are `Nat`; subtraction (which can wrap in C) is modelled
  by `u32sub` with an explicit `% 2^32`; every other arithmetic operation used
  by the program on `uint32_t` cannot overflow given operands below `2^32`
  except where an explicit `% 2^32` appears in a definition.
* `uint8_t` narrowing is modelled by `% 256`.
* A file opened for reading is a `MidiStream`: a byte list, a read position,
  and the C stdio end-of-file indicator.  `fgetc` returns `none` at EOF
  (C returns the `int` `EOF = -1`); each use site applies the conversion the C
  code performs on that `int` (`uint8_t` cast gives `0xFF`, `uint32_t`
  conversion in `|` gives `0xFFFFFFFF`).
* `qsort` from libc is modelled by its C-standard contract `IsQsortOutput`:
  the output is a permutation of the input that is pairwise ordered by the
  comparator.  The C standard makes no stability promise, so any such
  permutation is a possible output.
-/

/-- The 2^32 modulus of `uint32_t` arithmetic. -/
def U32 : Nat := 2 ^ 32

/-- `uint32_t` subtraction `a - b` (wraps modulo 2^32 on underflow). -/
def u32sub (a b : Nat) : Nat := (a + U32 - b) % U32

/-- `TrackEvent` (struct, mid2seq.c lines 23-29): one MIDI event held in memory. -/
structure TrackEvent where
  absolute_time : Nat
  status : Nat
  data1 : Nat
  data2 : Nat
  gate_time : Nat
deriving Repr, DecidableEq

instance : Inhabited TrackEvent := ⟨⟨0, 0, 0, 0, 0⟩⟩

/-- `SeqTempoEvent` (struct, mid2seq.c lines 16-19): one SEQ tempo entry. -/
structure SeqTempoEvent where
  step_time : Nat
  mspb : Nat
deriving Repr, DecidableEq

/-! ## Chunked delta/gate encoding (mid2seq.c lines 85-118 and 349-386) -/
/-- One `while (*v >= step) { fputc(op, file); *v -= step; }` loop of the
encoder: returns the emitted opcode bytes and the reduced remainder.
(All call sites use `0 < step`; the guard keeps the recursion well-founded.) -/
def chunkLoop (step op g : Nat) : List Nat × Nat :=
  if h : 0 < step ∧ step ≤ g then
    let r := chunkLoop step op (g - step)
    (op :: r.1, r.2)
  else ([], g)
termination_by g
decreasing_by exact Nat.sub_lt (Nat.lt_of_lt_of_le h.1 h.2) h.1

/-- `write_large_delta_events` (mid2seq.c lines 85-98): emits Step(Delta)
Extend opcodes 0x8F (4096), 0x8E (2048), 0x8D (512); returns the opcode
bytes in emission order and the reduced delta. -/
def write_large_delta_events (delta : Nat) : List Nat × Nat :=
  let a := chunkLoop 0x1000 0x8F delta
  let b := chunkLoop 0x800 0x8E a.2
  let c := chunkLoop 0x200 0x8D b.2
  (a.1 ++ b.1 ++ c.1, c.2)

/-- `write_extended_gate` (mid2seq.c lines 101-118): emits Gate Extend opcodes
0x8B (8192), 0x8A (4096), 0x89 (2048), 0x88 (512); returns the opcode bytes
in emission order and the reduced gate. -/
def write_extended_gate (gate : Nat) : List Nat × Nat :=
  let a := chunkLoop 0x2000 0x8B gate
  let b := chunkLoop 0x1000 0x8A a.2
  let c := chunkLoop 0x800 0x89 b.2
  let d := chunkLoop 0x200 0x88 c.2
  (a.1 ++ b.1 ++ c.1 ++ d.1, d.2)

/-- Value of one extension opcode, as the specification's decode rule assigns
them: 0x8F=4096, 0x8E=2048, 0x8D=512, 0x8C=256 (delta side) and 0x8B=8192,
0x8A=4096, 0x89=2048, 0x88=512 (gate side). -/
def opVal (b : Nat) : Nat :=
  if b = 0x8F then 0x1000
  else if b = 0x8E then 0x800
  else if b = 0x8D then 0x200
  else if b = 0x8C then 0x100
  else if b = 0x8B then 0x2000
  else if b = 0x8A then 0x1000
  else if b = 0x89 then 0x800
  else if b = 0x88 then 0x200
  else 0

/-- Spec-side decoder for a run of extension opcodes: the sum of their
reductions. -/
def opsValue (l : List Nat) : Nat := (l.map opVal).sum

/-! ## The event-track writer (mid2seq.c lines 336-387) -/
/-- `fputc` stores the low byte of its argument. -/
def fputcByte (x : Nat) : Nat := x % 256

/-- The bytes the writer emits for one surviving event (mid2seq.c lines
341-386), given `last_event_time`: the large-delta chunk opcodes, then either
the Note-On record (gate chunk opcodes, control byte with 0x20/0x40 overflow
flags, key, velocity, gate byte, delta byte) or the generic record (0x8C
delta bytes, raw status, the data bytes the event type requires, delta
byte). -/
def encodeEvent (e : TrackEvent) (last_event_time : Nat) : List Nat :=
  let delta_time := u32sub e.absolute_time last_event_time
  let dl := write_large_delta_events delta_time
  let event_type := e.status &&& 0xF0
  let channel := e.status &&& 0x0F
  if event_type = 0x90 then
    let gl := write_extended_gate e.gate_time
    let cd : Nat × Nat := if 256 ≤ dl.2 then (channel ||| 0x20, dl.2 - 256) else (channel, dl.2)
    let cg : Nat × Nat := if 256 ≤ gl.2 then (cd.1 ||| 0x40, gl.2 - 256) else (cd.1, gl.2)
    dl.1 ++ gl.1 ++
      [fputcByte cg.1, fputcByte e.data1, fputcByte e.data2, fputcByte cg.2, fputcByte cd.2]
  else
    let cl := chunkLoop 0x100 0x8C dl.2
    dl.1 ++ cl.1 ++ [fputcByte e.status] ++
      (if event_type = 0xB0 ∨ event_type = 0xA0 then [fputcByte e.data1, fputcByte e.data2]
       else if event_type = 0xE0 then [fputcByte e.data2]
       else [fputcByte e.data1]) ++ [fputcByte cl.2]

/-! ## Spec-side decoder for the gate of an emitted Note-On record -/
/-- Skip the leading Step(Delta) Extend opcodes of an emitted record. -/
def skipDeltaOps : List Nat → List Nat
  | [] => []
  | b :: rest => if b = 0x8F ∨ b = 0x8E ∨ b = 0x8D then skipDeltaOps rest else b :: rest

/-- Sum the reductions of the leading Gate Extend opcodes. -/
def sumGateOps : List Nat → Nat × List Nat
  | [] => (0, [])
  | b :: rest =>
    if b = 0x8B ∨ b = 0x8A ∨ b = 0x89 ∨ b = 0x88 then
      let r := sumGateOps rest
      (opVal b + r.1, r.2)
    else (0, b :: rest)

/-- The gate value a Note-On record encodes, reconstructed the way the
specification describes: the reductions of the gate opcodes 0x8B/0x8A/0x89/
0x88, plus 256 when the control byte's 0x40 flag is set, plus the final gate
byte (the fourth byte of the fixed part of the record). -/
def decodeNoteOnGate (bytes : List Nat) : Nat :=
  let r := sumGateOps (skipDeltaOps bytes)
  match r.2 with
  | ctl :: _ :: _ :: gb :: _ => r.1 + (if ctl &&& 0x40 ≠ 0 then 256 else 0) + gb
  | _ => r.1

/-! ## The input stream: C stdio model (reader side of mid2seq.c) -/
/-- A file opened for reading: its bytes, the read position, and the stdio
end-of-file indicator (set only by a read attempt past the last byte,
cleared by `fseek`). -/
structure MidiStream where
  bytes : List Nat
  pos : Nat
  eof : Bool
deriving Repr, DecidableEq

/-- `fgetc`: returns the next byte (a file byte is 0-255) and advances, or
returns `none` (C: the `int` value `EOF`) and sets the end-of-file
indicator. -/
def fgetc (s : MidiStream) : Option Nat × MidiStream :=
  if s.pos < s.bytes.length then
    (some (s.bytes.getD s.pos 0 % 256), { s with pos := s.pos + 1 })
  else (none, { s with eof := true })

/-- The C `uint8_t byte = fgetc(file)` narrowing: `EOF` (-1) becomes 0xFF. -/
def fgetcU8 (r : Option Nat) : Nat :=
  match r with
  | some b => b
  | none => 0xFF

/-- The C `uint32_t` conversion of `fgetc`'s `int` result inside
`(mspb << 8) | fgetc(file)`: `EOF` (-1) becomes 0xFFFFFFFF. -/
def fgetcU32 (r : Option Nat) : Nat :=
  match r with
  | some b => b
  | none => U32 - 1

/-- The accumulation loop of `read_variable_length` (mid2seq.c lines 74-79),
entered with the last byte read: while the byte's high bit is set, return the
accumulated value if the end-of-file indicator is set, else read another byte
and fold in its low 7 bits. -/
def rvlLoop (s : MidiStream) (value byte : Nat) : Nat × MidiStream :=
  if byte &&& 0x80 = 0 then (value, s)
  else if s.eof then (value, s)
  else
    let r := fgetc s
    let b := fgetcU8 r.1
    rvlLoop r.2 (((value <<< 7) % U32) ||| (b &&& 0x7F)) b
termination_by s.bytes.length - s.pos + (if s.eof then 0 else 1)
decreasing_by
  simp only [fgetc]
  split <;> simp_all <;> omega

/-- `read_variable_length` (mid2seq.c lines 65-81): reads a MIDI
variable-length quantity; returns 0 when the end-of-file indicator is
already set.  The EOF checks happen before each `fgetc`, so a read at the
end of the stream still folds the low 7 bits of the narrowed EOF sentinel
(0xFF) into the value before the loop's `feof` check fires. -/
def read_variable_length (s : MidiStream) : Nat × MidiStream :=
  if s.eof then (0, s)
  else
    let r := fgetc s
    let byte := fgetcU8 r.1
    rvlLoop r.2 (byte &&& 0x7F) byte

/-- The Set Tempo byte loop (mid2seq.c lines 220-221): folds `length` bytes
big-endian into `mspb` as a `uint32_t`. -/
def mspbLoop (s : MidiStream) (mspb : Nat) : Nat → Nat × MidiStream
  | 0 => (mspb, s)
  | n + 1 =>
    let r := fgetc s
    mspbLoop r.2 (((mspb <<< 8) % U32) ||| fgetcU32 r.1) n

/-- Handling of one meta event (mid2seq.c lines 215-229), entered after the
0xFF status byte was read: read the meta-type byte and a variable-length
length (stored into a `uint8_t`, hence `% 256`); for meta-type 0x51
(Set Tempo) with fewer than 255 recorded tempo events, fold `length` bytes
into `mspb` and record a tempo event whose `step_time` is the tick delta
since the last recorded tempo event; otherwise `fseek` forward `length`
bytes (which clears the end-of-file indicator).  Returns the stream and the
recorded tempo event, if any. -/
def handleMeta (s : MidiStream) (tempo_count current_time last_tempo_time : Nat) :
    MidiStream × Option SeqTempoEvent :=
  let r := fgetc s
  let meta_type := fgetcU8 r.1
  let lr := read_variable_length r.2
  let length := lr.1 % 256
  if meta_type = 0x51 ∧ tempo_count < 255 then
    let m := mspbLoop lr.2 0 length
    (m.2, some ⟨u32sub current_time last_tempo_time, m.1⟩)
  else
    ({ lr.2 with pos := lr.2.pos + length, eof := false }, none)

/-- Spec-side: the big-endian `uint32_t` value of a run of bytes. -/
def beValue (l : List Nat) : Nat := l.foldl (fun a b => ((a <<< 8) % U32) ||| b % 256) 0

/-! ## Event ordering (mid2seq.c lines 34-52 and line 267) -/
/-- `compare_events` (mid2seq.c lines 34-52): orders by `absolute_time`
ascending; at equal times a note-terminating event (Note-Off, or Note-On
with velocity 0) compares before a non-terminating one; otherwise equal. -/
def compare_events (a b : TrackEvent) : Int :=
  if a.absolute_time < b.absolute_time then -1
  else if a.absolute_time > b.absolute_time then 1
  else
    let typeA := a.status &&& 0xF0
    let typeB := b.status &&& 0xF0
    if (typeA = 0x80 ∨ (typeA = 0x90 ∧ a.data2 = 0)) ∧
        (typeB ≠ 0x80 ∧ (typeB ≠ 0x90 ∨ b.data2 ≠ 0)) then -1
    else if (typeB = 0x80 ∨ (typeB = 0x90 ∧ b.data2 = 0)) ∧
        (typeA ≠ 0x80 ∧ (typeA ≠ 0x90 ∨ a.data2 ≠ 0)) then 1
    else 0

/-- The C-standard contract of `qsort(events, event_count, sizeof(TrackEvent),
compare_events)` (mid2seq.c line 267): the output is some permutation of the
input in which no element compares greater than a later element.  The C
standard leaves the relative order of equal-comparing elements unspecified
and promises no stability, so every such permutation is a possible output. -/
def IsQsortOutput (l out : List TrackEvent) : Prop :=
  l.Perm out ∧ out.Pairwise (fun a b => compare_events a b ≤ 0)

/-- A note-terminating event: Note-Off, or Note-On with velocity 0. -/
def isTerminating (e : TrackEvent) : Prop :=
  e.status &&& 0xF0 = 0x80 ∨ (e.status &&& 0xF0 = 0x90 ∧ e.data2 = 0)

instance (e : TrackEvent) : Decidable (isTerminating e) := by
  unfold isTerminating; infer_instance

/-! ## Pass 4: tempo synthesis and SEQ header (mid2seq.c lines 269-298, 314-325) -/
/-- `first_musical_event_time` (mid2seq.c lines 270-277): the absolute time
of the first event whose status is not the meta marker 0xFF; 0 when no such
event exists. -/
def first_musical_event_time : List TrackEvent → Nat
  | [] => 0
  | e :: rest => if e.status ≠ 0xFF then e.absolute_time else first_musical_event_time rest

/-- `total_song_time` (mid2seq.c lines 279-282): the absolute time of the
last event; 0 when the list is empty. -/
def total_song_time (evs : List TrackEvent) : Nat :=
  (evs.getD (evs.length - 1) default).absolute_time

/-- The tempo-track rebuild (mid2seq.c lines 284-298): with at least one
recorded tempo event, the track becomes exactly two entries carrying the
first recorded `mspb`: a lead-in of length `first_musical_event_time` and a
body of length `total_song_time - first_musical_event_time` (`uint32_t`
subtraction); with none recorded it stays empty. -/
def rebuildTempoTrack (tempo_events : List SeqTempoEvent) (evs : List TrackEvent) :
    List SeqTempoEvent :=
  match tempo_events with
  | [] => []
  | t0 :: _ =>
    [⟨first_musical_event_time evs, t0.mspb⟩,
     ⟨u32sub (total_song_time evs) (first_musical_event_time evs), t0.mspb⟩]

/-- `SeqHeader` (struct, mid2seq.c lines 8-13), holding the field values
(the big-endian byte order of the serialized form is abstracted away). -/
structure SeqHeader where
  resolution : Nat
  num_tempo_events : Nat
  data_offset : Nat
  tempo_loop_offset : Nat
deriving Repr, DecidableEq

/-- The SEQ header construction (mid2seq.c lines 315-324); all fields are
`uint16_t`, hence `% 65536`. -/
def writeSeqHeader (division tempo_count : Nat) : SeqHeader :=
  { resolution := division % 65536,
    num_tempo_events := tempo_count % 65536,
    data_offset := (8 + tempo_count * 8) % 65536,
    tempo_loop_offset := if tempo_count > 0 then (8 + 1 * 8) % 65536 else 0 }

/-! ## Pass 2: gate-time calculation (mid2seq.c lines 236-264) -/
/-- In-place update of the element at index `n` (the C `events[n].f = ...`). -/
def modifyIdx : List TrackEvent → Nat → (TrackEvent → TrackEvent) → List TrackEvent
  | [], _, _ => []
  | e :: rest, 0, f => f e :: rest
  | e :: rest, n + 1, f => e :: modifyIdx rest n f

/-- The (channel, key) slot of an event in the 16x128 `active_note_indices`
table.  The table is modelled as a total map; valid MIDI keeps the key below
128, and C attaches no defined behavior to indexing outside the array. -/
def slotOf (e : TrackEvent) : Nat × Nat := (e.status &&& 0x0F, e.data1)

/-- The state of Pass 2: the event array and the active-note table. -/
structure GateState where
  events : List TrackEvent
  tbl : Nat × Nat → Option Nat

/-- One iteration of Pass 2 (mid2seq.c lines 242-264) at index `i`:
* Note-On with velocity > 0: close any active note on the same slot (its
  `gate_time` becomes the `uint32_t` time difference) and make `i` active;
* Note-Off, or Note-On with velocity 0: when a matching active note exists,
  close it, zero this event's status (mark for removal) and clear the slot;
  when none exists, do nothing (orphan);
* all other statuses: do nothing. -/
def gateStep (st : GateState) (i : Nat) : GateState :=
  let e := st.events.getD i default
  let event_type := e.status &&& 0xF0
  let channel := e.status &&& 0x0F
  let key := e.data1
  let velocity := e.data2
  if event_type = 0x90 ∧ velocity > 0 then
    match st.tbl (channel, key) with
    | some prev_idx =>
        { events := modifyIdx st.events prev_idx
            (fun pe => { pe with gate_time := u32sub e.absolute_time pe.absolute_time }),
          tbl := fun p => if p = (channel, key) then some i else st.tbl p }
    | none => { st with tbl := fun p => if p = (channel, key) then some i else st.tbl p }
  else if event_type = 0x80 ∨ (event_type = 0x90 ∧ velocity = 0) then
    match st.tbl (channel, key) with
    | some note_on_index =>
        { events := modifyIdx (modifyIdx st.events note_on_index
            (fun pe => { pe with gate_time := u32sub e.absolute_time pe.absolute_time })) i
            (fun te => { te with status := 0x00 }),
          tbl := fun p => if p = (channel, key) then none else st.tbl p }
    | none => st
  else st

/-- Run Pass 2 from index `start` for `count` steps. -/
def gateRunFrom (st : GateState) (start : Nat) : Nat → GateState
  | 0 => st
  | c + 1 => gateRunFrom (gateStep st start) (start + 1) c

/-- The whole of Pass 2 (mid2seq.c lines 237-264): every index in order,
starting from the all-empty active table. -/
def gatePass (evs : List TrackEvent) : List TrackEvent :=
  (gateRunFrom ⟨evs, fun _ => none⟩ 0 evs.length).events

/-- The invariant Pass 2 maintains after processing indices `< k`: lengths
are preserved, indices `≥ k` are untouched, and every table entry `i` points
below `k` at an untouched Note-On (velocity > 0) whose slot is the entry's
key. -/
def GateInv (evs0 : List TrackEvent) (k : Nat) (st : GateState) : Prop :=
  st.events.length = evs0.length ∧
  (∀ m, k ≤ m → st.events.getD m default = evs0.getD m default) ∧
  (∀ p i, st.tbl p = some i → i < k ∧ st.events.getD i default = evs0.getD i default ∧
    slotOf (evs0.getD i default) = p ∧ (evs0.getD i default).status &&& 0xF0 = 0x90 ∧
    (evs0.getD i default).data2 > 0)

/-! ## Theorems -/

theorem u32sub_eq_sub {a b : Nat} (hba : b ≤ a) (ha : a < U32) : u32sub a b = a - b := by
  unfold u32sub
  have h1 : a + U32 - b = (a - b) + U32 := by omega
  rw [h1, Nat.add_mod_right, Nat.mod_eq_of_lt (by omega)]

theorem chunkLoop_closed (step op g : Nat) (hs : 0 < step) :
    chunkLoop step op g = (List.replicate (g / step) op, g % step) := by
  induction g using Nat.strong_induction_on with
  | _ g ih =>
    rw [chunkLoop]
    by_cases hle : step ≤ g
    · have hg : 0 < g := Nat.lt_of_lt_of_le hs hle
      rw [dif_pos ⟨hs, hle⟩, ih (g - step) (by omega)]
      rw [Nat.div_eq_sub_div hs hle, ← Nat.mod_eq_sub_mod hle]
      simp [List.replicate_succ]
    · rw [dif_neg (by tauto)]
      have hlt : g < step := by omega
      rw [Nat.div_eq_of_lt hlt, Nat.mod_eq_of_lt hlt]
      simp

theorem write_large_delta_events_closed (d : Nat) :
    write_large_delta_events d =
      (List.replicate (d / 0x1000) 0x8F ++ List.replicate (d % 0x1000 / 0x800) 0x8E ++
        List.replicate (d % 0x1000 % 0x800 / 0x200) 0x8D,
       d % 0x1000 % 0x800 % 0x200) := by
  have h1 := chunkLoop_closed 0x1000 0x8F d (by norm_num)
  have h2 := chunkLoop_closed 0x800 0x8E (d % 0x1000) (by norm_num)
  have h3 := chunkLoop_closed 0x200 0x8D (d % 0x1000 % 0x800) (by norm_num)
  simp only [write_large_delta_events, h1, h2, h3]

theorem write_extended_gate_closed (g : Nat) :
    write_extended_gate g =
      (List.replicate (g / 0x2000) 0x8B ++ List.replicate (g % 0x2000 / 0x1000) 0x8A ++
        List.replicate (g % 0x2000 % 0x1000 / 0x800) 0x89 ++
        List.replicate (g % 0x2000 % 0x1000 % 0x800 / 0x200) 0x88,
       g % 0x2000 % 0x1000 % 0x800 % 0x200) := by
  have h1 := chunkLoop_closed 0x2000 0x8B g (by norm_num)
  have h2 := chunkLoop_closed 0x1000 0x8A (g % 0x2000) (by norm_num)
  have h3 := chunkLoop_closed 0x800 0x89 (g % 0x2000 % 0x1000) (by norm_num)
  have h4 := chunkLoop_closed 0x200 0x88 (g % 0x2000 % 0x1000 % 0x800) (by norm_num)
  simp only [write_extended_gate, h1, h2, h3, h4]

theorem opsValue_append (a b : List Nat) : opsValue (a ++ b) = opsValue a + opsValue b := by
  simp [opsValue]

theorem opsValue_replicate (n b : Nat) : opsValue (List.replicate n b) = n * opVal b := by
  simp [opsValue, List.map_replicate, List.sum_replicate, smul_eq_mul]

/-- C3: Round-trip of the delta/gate chunk encodings.  For any value:
* non-Note-On delta path: the 0x8F/0x8E/0x8D chunk opcodes, the 0x8C bytes
  (one per remaining 256), and the final delta byte sum back to the value;
* Note-On delta path: the chunk opcodes, 256 for the 0x20 control flag when
  the remainder is ≥ 256, and the final delta byte sum back to the value;
* gate path: the 0x8B/0x8A/0x89/0x88 opcodes, 256 for the 0x40 control flag
  when the remainder is ≥ 256, and the final gate byte sum back to the value. -/
theorem c3_chunk_roundtrip (d g : Nat) :
    (opsValue (write_large_delta_events d).1 +
       opsValue (chunkLoop 0x100 0x8C (write_large_delta_events d).2).1 +
       (chunkLoop 0x100 0x8C (write_large_delta_events d).2).2 = d) ∧
    (opsValue (write_large_delta_events d).1 +
       (if 256 ≤ (write_large_delta_events d).2 then 256 else 0) +
       (if 256 ≤ (write_large_delta_events d).2 then (write_large_delta_events d).2 - 256
        else (write_large_delta_events d).2) = d) ∧
    (opsValue (write_extended_gate g).1 +
       (if 256 ≤ (write_extended_gate g).2 then 256 else 0) +
       (if 256 ≤ (write_extended_gate g).2 then (write_extended_gate g).2 - 256
        else (write_extended_gate g).2) = g) := by
  rw [write_large_delta_events_closed, write_extended_gate_closed]
  rw [chunkLoop_closed _ _ _ (by norm_num)]
  simp only [opsValue_append, opsValue_replicate, opVal]
  norm_num
  refine ⟨by omega, by split_ifs <;> omega, by split_ifs <;> omega⟩

theorem skipDeltaOps_replicate_append {b : Nat} (hb : b = 0x8F ∨ b = 0x8E ∨ b = 0x8D)
    (n : Nat) (l : List Nat) :
    skipDeltaOps (List.replicate n b ++ l) = skipDeltaOps l := by
  induction n with
  | zero => simp
  | succ n ih => simp [List.replicate_succ, skipDeltaOps, hb, ih]

theorem sumGateOps_replicate_append {b : Nat} (hb : b = 0x8B ∨ b = 0x8A ∨ b = 0x89 ∨ b = 0x88)
    (n : Nat) (l : List Nat) :
    sumGateOps (List.replicate n b ++ l) =
      (n * opVal b + (sumGateOps l).1, (sumGateOps l).2) := by
  induction n with
  | zero => simp
  | succ n ih => simp [List.replicate_succ, sumGateOps, hb, ih]; ring

theorem sumGateOps_cons_stop {c : Nat} (hc : c < 0x88) (r : List Nat) :
    sumGateOps (c :: r) = (0, c :: r) := by
  unfold sumGateOps
  rw [if_neg (by omega)]

/-- Skipping delta opcodes stops as soon as the head is a gate opcode or the
control byte, whichever comes first. -/
theorem skipDeltaOps_gateshape (m1 m2 m3 m4 ctl : Nat) (r : List Nat) (hctl : ctl < 0x88) :
    skipDeltaOps (List.replicate m1 0x8B ++ (List.replicate m2 0x8A ++
        (List.replicate m3 0x89 ++ (List.replicate m4 0x88 ++ ctl :: r)))) =
      List.replicate m1 0x8B ++ (List.replicate m2 0x8A ++
        (List.replicate m3 0x89 ++ (List.replicate m4 0x88 ++ ctl :: r))) := by
  cases m1 with
  | succ k => simp [List.replicate_succ, skipDeltaOps]
  | zero =>
    cases m2 with
    | succ k => simp [List.replicate_succ, skipDeltaOps]
    | zero =>
      cases m3 with
      | succ k => simp [List.replicate_succ, skipDeltaOps]
      | zero =>
        cases m4 with
        | succ k => simp [List.replicate_succ, skipDeltaOps]
        | zero =>
          have : ¬(ctl = 0x8F ∨ ctl = 0x8E ∨ ctl = 0x8D) := by omega
          simp [skipDeltaOps, this]

/-- Flag facts about the Note-On control byte built from a 4-bit channel. -/
theorem ctlFacts {ch : Nat} (h : ch < 16) :
    ch < 0x80 ∧ (ch ||| 0x20) < 0x80 ∧ (ch ||| 0x40) < 0x80 ∧ ((ch ||| 0x20) ||| 0x40) < 0x80 ∧
    ch &&& 0x40 = 0 ∧ (ch ||| 0x20) &&& 0x40 = 0 ∧
    (ch ||| 0x40) &&& 0x40 = 0x40 ∧ ((ch ||| 0x20) ||| 0x40) &&& 0x40 = 0x40 := by
  interval_cases ch <;> decide

/-- Decoding a fully laid-out Note-On record recovers the gate opcode sum,
the 0x40 flag contribution, and the gate byte. -/
theorem decodeNoteOnGate_shape (n1 n2 n3 m1 m2 m3 m4 ctl d1 d2 gb db : Nat)
    (hctl : ctl < 0x80) :
    decodeNoteOnGate (List.replicate n1 0x8F ++ (List.replicate n2 0x8E ++ (List.replicate n3 0x8D ++
        (List.replicate m1 0x8B ++ (List.replicate m2 0x8A ++ (List.replicate m3 0x89 ++
        (List.replicate m4 0x88 ++ [ctl, d1, d2, gb, db]))))))) =
      0x2000 * m1 + 0x1000 * m2 + 0x800 * m3 + 0x200 * m4 +
        (if ctl &&& 0x40 ≠ 0 then 256 else 0) + gb := by
  have hc88 : ctl < 0x88 := by omega
  unfold decodeNoteOnGate
  rw [skipDeltaOps_replicate_append (by norm_num), skipDeltaOps_replicate_append (by norm_num),
    skipDeltaOps_replicate_append (by norm_num), skipDeltaOps_gateshape _ _ _ _ _ _ hc88,
    sumGateOps_replicate_append (by norm_num), sumGateOps_replicate_append (by norm_num),
    sumGateOps_replicate_append (by norm_num), sumGateOps_replicate_append (by norm_num),
    sumGateOps_cons_stop hc88]
  simp only [opVal]
  norm_num [Nat.mul_comm]
  ring

/-- Round-trip at the event level: for a Note-On event the emitted record's
gate, reconstructed per the specification's decode rule, is exactly the
event's `gate_time`. -/
theorem fputcByte_of_lt {x : Nat} (h : x < 256) : fputcByte x = x := Nat.mod_eq_of_lt h

theorem decodeNoteOnGate_encodeEvent (e : TrackEvent) (last : Nat)
    (h : e.status &&& 0xF0 = 0x90) :
    decodeNoteOnGate (encodeEvent e last) = e.gate_time := by
  have hch : e.status &&& 0x0F < 16 := Nat.lt_succ_of_le Nat.and_le_right
  obtain ⟨hc1, hc2, hc3, hc4, hf1, hf2, hf3, hf4⟩ := ctlFacts hch
  simp only [encodeEvent, if_pos h, write_large_delta_events_closed, write_extended_gate_closed]
  set d := u32sub e.absolute_time last with hd
  set g := e.gate_time with hg
  set ch := e.status &&& 0x0F with hch2
  have hdrem : d % 0x1000 % 0x800 % 0x200 < 0x200 := Nat.mod_lt _ (by norm_num)
  have hgrem : g % 0x2000 % 0x1000 % 0x800 % 0x200 < 0x200 := Nat.mod_lt _ (by norm_num)
  by_cases h1 : 256 ≤ d % 0x1000 % 0x800 % 0x200 <;>
    by_cases h2 : 256 ≤ g % 0x2000 % 0x1000 % 0x800 % 0x200
  · rw [if_pos h1, if_pos h2]
    dsimp only
    rw [fputcByte_of_lt (show (ch ||| 0x20) ||| 0x40 < 256 by omega),
      fputcByte_of_lt (show g % 0x2000 % 0x1000 % 0x800 % 0x200 - 256 < 256 by omega)]
    simp only [List.append_assoc]
    rw [decodeNoteOnGate_shape _ _ _ _ _ _ _ _ _ _ _ _ (by omega)]
    rw [if_pos (by rw [hf4]; norm_num)]
    omega
  · rw [if_pos h1, if_neg h2]
    dsimp only
    rw [fputcByte_of_lt (show (ch ||| 0x20) < 256 by omega),
      fputcByte_of_lt (show g % 0x2000 % 0x1000 % 0x800 % 0x200 < 256 by omega)]
    simp only [List.append_assoc]
    rw [decodeNoteOnGate_shape _ _ _ _ _ _ _ _ _ _ _ _ (by omega)]
    rw [if_neg (by rw [hf2]; simp)]
    omega
  · rw [if_neg h1, if_pos h2]
    dsimp only
    rw [fputcByte_of_lt (show ch ||| 0x40 < 256 by omega),
      fputcByte_of_lt (show g % 0x2000 % 0x1000 % 0x800 % 0x200 - 256 < 256 by omega)]
    simp only [List.append_assoc]
    rw [decodeNoteOnGate_shape _ _ _ _ _ _ _ _ _ _ _ _ (by omega)]
    rw [if_pos (by rw [hf3]; norm_num)]
    omega
  · rw [if_neg h1, if_neg h2]
    dsimp only
    rw [fputcByte_of_lt (show ch < 256 by omega),
      fputcByte_of_lt (show g % 0x2000 % 0x1000 % 0x800 % 0x200 < 256 by omega)]
    simp only [List.append_assoc]
    rw [decodeNoteOnGate_shape _ _ _ _ _ _ _ _ _ _ _ _ (by omega)]
    rw [if_neg (by rw [hf1]; simp)]
    omega

theorem and_0x7F_of_lt {x : Nat} (h : x < 128) : x &&& 0x7F = x := by
  rw [show (0x7F : Nat) = 2 ^ 7 - 1 by norm_num, Nat.and_pow_two_sub_one_eq_mod]
  exact Nat.mod_eq_of_lt h

theorem and_0x80_of_lt {x : Nat} (h : x < 128) : x &&& 0x80 = 0 := by
  have h2 := Nat.and_two_pow x 7
  rw [Nat.testBit_lt_two_pow h] at h2
  simpa using h2

/-- `mspbLoop` reads exactly `n` in-bounds bytes, folding them big-endian. -/
theorem mspbLoop_spec (n : Nat) : ∀ (s : MidiStream) (a : Nat), s.eof = false →
    s.pos + n ≤ s.bytes.length →
    mspbLoop s a n =
      ((List.take n (List.drop s.pos s.bytes)).foldl
          (fun x b => ((x <<< 8) % U32) ||| b % 256) a,
        { s with pos := s.pos + n }) := by
  induction n with
  | zero => intro s a _ _; simp [mspbLoop]
  | succ n ih =>
    intro s a heof hlen
    have hpos : s.pos < s.bytes.length := by omega
    have hfgetc : fgetc s = (some (s.bytes.getD s.pos 0 % 256), { s with pos := s.pos + 1 }) := by
      simp [fgetc, hpos]
    simp only [mspbLoop, hfgetc, fgetcU32]
    rw [ih { s with pos := s.pos + 1 } _ heof (by simpa using by omega)]
    rw [List.drop_eq_getElem_cons hpos]
    simp only [List.take_succ_cons, List.foldl_cons]
    rw [List.getD_eq_getElem s.bytes 0 hpos]
    rw [show s.pos + 1 + n = s.pos + (n + 1) from by omega]

/-- C6 (code behavior at the failing input): at end of stream mid-quantity
the decoder does not return only the value accumulated from the bytes
actually read.  With the single continuation byte 0x81 (whose low 7 bits
accumulate to 1), the narrowed EOF sentinel's low 7 bits are folded in
before the end-of-file indicator is consulted, and the function returns
255. -/
theorem rvlLoop_stop {s : MidiStream} {v b : Nat} (h : b &&& 0x80 = 0) :
    rvlLoop s v b = (v, s) := by
  rw [rvlLoop.eq_def, if_pos h]

theorem rvlLoop_eof {s : MidiStream} {v b : Nat} (h1 : ¬b &&& 0x80 = 0) (h2 : s.eof = true) :
    rvlLoop s v b = (v, s) := by
  rw [rvlLoop.eq_def, if_neg h1, if_pos h2]

theorem rvlLoop_step {s : MidiStream} {v b : Nat} (h1 : ¬b &&& 0x80 = 0) (h2 : s.eof = false) :
    rvlLoop s v b =
      rvlLoop (fgetc s).2 (((v <<< 7) % U32) ||| (fgetcU8 (fgetc s).1 &&& 0x7F))
        (fgetcU8 (fgetc s).1) := by
  rw [rvlLoop.eq_def, if_neg h1, if_neg (by simp [h2])]

theorem c6_eof_behavior :
    (read_variable_length ⟨[0x81], 0, false⟩).1 = 255 ∧ (0x81 : Nat) &&& 0x7F = 1 ∧
      (255 : Nat) ≠ 1 := by
  refine ⟨?_, by decide, by norm_num⟩
  have h1 : rvlLoop ⟨[0x81], 1, true⟩ 255 255 = (255, ⟨[0x81], 1, true⟩) :=
    rvlLoop_eof (by decide) rfl
  have h2 : rvlLoop ⟨[0x81], 1, false⟩ 1 129 = (255, ⟨[0x81], 1, true⟩) := by
    rw [rvlLoop_step (by decide) rfl]
    exact h1
  have h3 : read_variable_length ⟨[0x81], 0, false⟩ = (255, ⟨[0x81], 1, true⟩) := by
    unfold read_variable_length
    rw [if_neg (by decide)]
    exact h2
  rw [h3]

/-- C9: the reader effectively uses `L % 256` for a meta event whose
variable-length length field decodes to `L`: a non-tempo meta event (or a
Set Tempo beyond the 255-event cap) advances the position by exactly
`L % 256` past the length field; a recorded Set Tempo accumulates its
microsecond value big-endian from the `L % 256` bytes after the length field
(3 for a standard Set Tempo, 0 giving `mspb = 0`, any `L ≥ 256` silently
truncated). -/
theorem c9_meta_length_mod256 (s : MidiStream) (c ct lt : Nat) :
    (¬(fgetcU8 (fgetc s).1 = 0x51 ∧ c < 255) →
      handleMeta s c ct lt =
        ({ (read_variable_length (fgetc s).2).2 with
            pos := (read_variable_length (fgetc s).2).2.pos +
              (read_variable_length (fgetc s).2).1 % 256,
            eof := false }, none)) ∧
    ((fgetcU8 (fgetc s).1 = 0x51 ∧ c < 255) →
      (read_variable_length (fgetc s).2).2.eof = false →
      (read_variable_length (fgetc s).2).2.pos + (read_variable_length (fgetc s).2).1 % 256 ≤
        (read_variable_length (fgetc s).2).2.bytes.length →
      handleMeta s c ct lt =
        ({ (read_variable_length (fgetc s).2).2 with
            pos := (read_variable_length (fgetc s).2).2.pos +
              (read_variable_length (fgetc s).2).1 % 256 },
         some ⟨u32sub ct lt,
           beValue (List.take ((read_variable_length (fgetc s).2).1 % 256)
             (List.drop (read_variable_length (fgetc s).2).2.pos
               (read_variable_length (fgetc s).2).2.bytes))⟩)) := by
  constructor
  · intro hn
    simp only [handleMeta]
    rw [if_neg hn]
  · intro hp heof hlen
    simp only [handleMeta]
    rw [if_pos hp, mspbLoop_spec _ _ _ heof hlen]
    rfl

/-- C9 witness: a Set Tempo meta event whose length field decodes to 257
(VLQ bytes 0x82 0x01) reads `257 % 256 = 1` byte (0xAA) as the tempo. -/
theorem c9_witness :
    handleMeta ⟨[0x51, 0x82, 0x01, 0xAA, 0xBB], 0, false⟩ 0 10 0 =
      (⟨[0x51, 0x82, 0x01, 0xAA, 0xBB], 4, false⟩, some ⟨10, 0xAA⟩) := by
  have hf : fgetc ⟨[0x51, 0x82, 0x01, 0xAA, 0xBB], 0, false⟩ =
      (some 0x51, ⟨[0x51, 0x82, 0x01, 0xAA, 0xBB], 1, false⟩) := by
    simp [fgetc]
  have hrvl : read_variable_length ⟨[0x51, 0x82, 0x01, 0xAA, 0xBB], 1, false⟩ =
      (257, ⟨[0x51, 0x82, 0x01, 0xAA, 0xBB], 3, false⟩) := by
    have hB : rvlLoop ⟨[0x51, 0x82, 0x01, 0xAA, 0xBB], 3, false⟩ 257 1 =
        (257, ⟨[0x51, 0x82, 0x01, 0xAA, 0xBB], 3, false⟩) := rvlLoop_stop (by decide)
    have hA : rvlLoop ⟨[0x51, 0x82, 0x01, 0xAA, 0xBB], 2, false⟩ 2 130 =
        (257, ⟨[0x51, 0x82, 0x01, 0xAA, 0xBB], 3, false⟩) := by
      rw [rvlLoop_step (by decide) rfl]
      exact hB
    unfold read_variable_length
    rw [if_neg (by decide)]
    exact hA
  obtain ⟨-, h⟩ := c9_meta_length_mod256 ⟨[0x51, 0x82, 0x01, 0xAA, 0xBB], 0, false⟩ 0 10 0
  rw [hf] at h
  dsimp only at h
  rw [hrvl] at h
  dsimp only at h
  have h2 := h ⟨rfl, by norm_num⟩ rfl (by norm_num)
  exact h2.trans (by decide)

/-- C4 counterexample: a non-tempo meta event (type 0x2F) whose
variable-length length field decodes to 256 (VLQ bytes 0x82 0x00).  The
claim says the reader seeks forward exactly the decoded length (256 bytes);
the code stores the length in a `uint8_t`, so it seeks forward
`256 % 256 = 0` bytes and ends at position 3 rather than 3 + 256. -/
theorem c4_counterexample :
    (read_variable_length ⟨[0x2F, 0x82, 0x00], 1, false⟩).1 = 256 ∧
    (handleMeta ⟨[0x2F, 0x82, 0x00], 0, false⟩ 0 0 0).1.pos = 3 ∧ (3 : Nat) ≠ 3 + 256 := by
  have hrvl : read_variable_length ⟨[0x2F, 0x82, 0x00], 1, false⟩ =
      (256, ⟨[0x2F, 0x82, 0x00], 3, false⟩) := by
    have hB : rvlLoop ⟨[0x2F, 0x82, 0x00], 3, false⟩ 256 0 =
        (256, ⟨[0x2F, 0x82, 0x00], 3, false⟩) := rvlLoop_stop (by decide)
    have hA : rvlLoop ⟨[0x2F, 0x82, 0x00], 2, false⟩ 2 130 =
        (256, ⟨[0x2F, 0x82, 0x00], 3, false⟩) := by
      rw [rvlLoop_step (by decide) rfl]
      exact hB
    unfold read_variable_length
    rw [if_neg (by decide)]
    exact hA
  refine ⟨by rw [hrvl], ?_, by norm_num⟩
  have hm : handleMeta ⟨[0x2F, 0x82, 0x00], 0, false⟩ 0 0 0 =
      (⟨[0x2F, 0x82, 0x00], 3, false⟩, none) := by
    unfold handleMeta
    rw [show fgetc ⟨[0x2F, 0x82, 0x00], 0, false⟩ =
      (some 0x2F, ⟨[0x2F, 0x82, 0x00], 1, false⟩) from by decide]
    dsimp only
    rw [show fgetcU8 (some 0x2F) = 0x2F from rfl, hrvl]
    rw [if_neg (by decide)]
    rfl
  rw [hm]

/-- C4 (amended): a meta event laid out at the reader's position as
meta-type byte, single-byte length `len < 128`, then at least `len` payload
bytes.  If the meta-type is 0x51 and the tempo count is below 255, the
reader records a tempo event whose `step_time` is the `uint32_t` tick delta
since the previous recorded tempo event and whose `mspb` is the big-endian
value of the `len` payload bytes (`len % 256` in general, 3 for a standard
Set Tempo); every other meta event is skipped by seeking forward
`len % 256 = len` bytes. -/
theorem c4_meta_event_handling (s : MidiStream) (c ct lt len : Nat)
    (heof : s.eof = false) (hpos : s.pos + 2 + len ≤ s.bytes.length) (hl : len < 128)
    (hlen : s.bytes.getD (s.pos + 1) 0 % 256 = len) :
    ((s.bytes.getD s.pos 0 % 256 = 0x51 ∧ c < 255) →
      handleMeta s c ct lt =
        ({ s with pos := s.pos + 2 + len },
         some ⟨u32sub ct lt, beValue (List.take len (List.drop (s.pos + 2) s.bytes))⟩)) ∧
    (¬(s.bytes.getD s.pos 0 % 256 = 0x51 ∧ c < 255) →
      handleMeta s c ct lt = ({ s with pos := s.pos + 2 + len, eof := false }, none)) := by
  have h0 : s.pos < s.bytes.length := by omega
  have h1 : s.pos + 1 < s.bytes.length := by omega
  have hf1 : fgetc s = (some (s.bytes.getD s.pos 0 % 256), { s with pos := s.pos + 1 }) := by
    simp [fgetc, h0]
  have hf2 : fgetc { s with pos := s.pos + 1 } =
      (some len, { s with pos := s.pos + 1 + 1 }) := by
    simp [fgetc, h1]
    rw [← List.getD_eq_getElem s.bytes 0 h1]
    exact hlen
  have hrvl : read_variable_length { s with pos := s.pos + 1 } =
      (len, { s with pos := s.pos + 2 }) := by
    unfold read_variable_length
    rw [if_neg (by simp [heof])]
    rw [hf2]
    dsimp only
    rw [show fgetcU8 (some len) = len from rfl]
    rw [and_0x7F_of_lt hl, rvlLoop_stop (and_0x80_of_lt hl)]
  have hlm : len % 256 = len := Nat.mod_eq_of_lt (by omega)
  constructor
  · intro hp
    unfold handleMeta
    rw [hf1]
    dsimp only
    simp only [fgetcU8]
    rw [hrvl]
    dsimp only
    rw [hlm]
    rw [if_pos hp]
    rw [mspbLoop_spec len { s with pos := s.pos + 2 } 0 (by simp [heof]) (by simp; omega)]
    simp only [beValue]
  · intro hp
    unfold handleMeta
    rw [hf1]
    dsimp only
    simp only [fgetcU8]
    rw [hrvl]
    dsimp only
    rw [hlm]
    rw [if_neg hp]

/-- C4 witness: a standard Set Tempo meta event 0x51 0x03 0x07 0xA1 0x20 at
current time 100 with the previous tempo at time 40 records
`⟨60, 500000⟩`. -/
theorem c4_witness :
    handleMeta ⟨[0x51, 0x03, 0x07, 0xA1, 0x20], 0, false⟩ 0 100 40 =
      (⟨[0x51, 0x03, 0x07, 0xA1, 0x20], 5, false⟩, some ⟨60, 500000⟩) := by
  have h := (c4_meta_event_handling ⟨[0x51, 0x03, 0x07, 0xA1, 0x20], 0, false⟩ 0 100 40 3
    rfl (by norm_num) (by norm_num) (by decide)).1 ⟨by decide, by norm_num⟩
  exact h.trans (by decide)

theorem compare_le_facts (a b : TrackEvent) (h : compare_events a b ≤ 0) :
    a.absolute_time ≤ b.absolute_time ∧
      (a.absolute_time = b.absolute_time → isTerminating b → isTerminating a) := by
  simp only [compare_events] at h
  by_cases h1 : a.absolute_time < b.absolute_time
  · exact ⟨le_of_lt h1, fun he => absurd he (by omega)⟩
  · rw [if_neg h1] at h
    by_cases h2 : a.absolute_time > b.absolute_time
    · rw [if_pos h2] at h
      norm_num at h
    · rw [if_neg h2] at h
      refine ⟨by omega, fun _ htermb => ?_⟩
      by_contra hterma
      have hc1 : ¬((a.status &&& 0xF0 = 0x80 ∨ (a.status &&& 0xF0 = 0x90 ∧ a.data2 = 0)) ∧
          (b.status &&& 0xF0 ≠ 0x80 ∧ (b.status &&& 0xF0 ≠ 0x90 ∨ b.data2 ≠ 0))) :=
        fun hc => hterma hc.1
      have hc2 : (b.status &&& 0xF0 = 0x80 ∨ (b.status &&& 0xF0 = 0x90 ∧ b.data2 = 0)) ∧
          (a.status &&& 0xF0 ≠ 0x80 ∧ (a.status &&& 0xF0 ≠ 0x90 ∨ a.data2 ≠ 0)) := by
        refine ⟨htermb, ?_⟩
        unfold isTerminating at hterma
        tauto
      rw [if_neg hc1, if_pos hc2] at h
      norm_num at h

/-- C5 counterexample: qsort's contract does not force stability.  The two
events compare equal (both at time 0, neither terminating), yet the output
that swaps them is a valid qsort output of the input list, so events
comparing equal need not keep their relative order. -/
theorem c5_counterexample :
    IsQsortOutput [⟨0, 0x90, 60, 100, 0⟩, ⟨0, 0xB0, 7, 64, 0⟩]
        [⟨0, 0xB0, 7, 64, 0⟩, ⟨0, 0x90, 60, 100, 0⟩] ∧
      compare_events ⟨0, 0x90, 60, 100, 0⟩ ⟨0, 0xB0, 7, 64, 0⟩ = 0 ∧
      ([⟨0, 0xB0, 7, 64, 0⟩, ⟨0, 0x90, 60, 100, 0⟩] : List TrackEvent) ≠
        [⟨0, 0x90, 60, 100, 0⟩, ⟨0, 0xB0, 7, 64, 0⟩] := by
  refine ⟨⟨List.Perm.swap _ _ _, ?_⟩, by decide, by decide⟩
  decide

/-- C5 (amended): in every valid qsort output, `absolute_time` is
non-decreasing across the sequence, and among events with equal
`absolute_time` every note-terminating event is placed before every
non-terminating event.  (Stability is not part of the qsort contract; see
the counterexample.) -/
theorem c5_sorted_order (l out : List TrackEvent) (h : IsQsortOutput l out)
    (i j : Nat) (hij : i < j) (hj : j < out.length) :
    (out.getD i default).absolute_time ≤ (out.getD j default).absolute_time ∧
      ((out.getD i default).absolute_time = (out.getD j default).absolute_time →
        isTerminating (out.getD j default) → isTerminating (out.getD i default)) := by
  have hi : i < out.length := lt_trans hij hj
  have hp := (List.pairwise_iff_get.mp h.2) ⟨i, hi⟩ ⟨j, hj⟩ hij
  rw [List.getD_eq_getElem _ _ hi, List.getD_eq_getElem _ _ hj]
  rw [List.get_eq_getElem, List.get_eq_getElem] at hp
  exact compare_le_facts _ _ hp

/-- C5 witness: instantiating the amended order theorem on a concrete valid
qsort output. -/
theorem c5_witness :
    ((([⟨0, 0x80, 60, 0, 0⟩, ⟨5, 0x90, 60, 100, 0⟩] : List TrackEvent).getD 0
        default).absolute_time ≤
      (([⟨0, 0x80, 60, 0, 0⟩, ⟨5, 0x90, 60, 100, 0⟩] : List TrackEvent).getD 1
        default).absolute_time) ∧
    ((([⟨0, 0x80, 60, 0, 0⟩, ⟨5, 0x90, 60, 100, 0⟩] : List TrackEvent).getD 0
        default).absolute_time =
      (([⟨0, 0x80, 60, 0, 0⟩, ⟨5, 0x90, 60, 100, 0⟩] : List TrackEvent).getD 1
        default).absolute_time →
      isTerminating (([⟨0, 0x80, 60, 0, 0⟩, ⟨5, 0x90, 60, 100, 0⟩] :
        List TrackEvent).getD 1 default) →
      isTerminating (([⟨0, 0x80, 60, 0, 0⟩, ⟨5, 0x90, 60, 100, 0⟩] :
        List TrackEvent).getD 0 default)) :=
  c5_sorted_order [⟨0, 0x80, 60, 0, 0⟩, ⟨5, 0x90, 60, 100, 0⟩]
    [⟨0, 0x80, 60, 0, 0⟩, ⟨5, 0x90, 60, 100, 0⟩]
    ⟨List.Perm.refl _, by decide⟩ 0 1 (by norm_num) (by norm_num)

/-- C8 counterexample: the input list is already sorted by `compare_events`
(the two program-change events compare equal), yet the swapped list is also
a valid qsort output, so re-sorting need not return the identical
sequence. -/
theorem c8_counterexample :
    List.Pairwise (fun a b => compare_events a b ≤ 0)
        [⟨5, 0xC0, 1, 0, 0⟩, ⟨5, 0xC0, 2, 0, 0⟩] ∧
    IsQsortOutput [⟨5, 0xC0, 1, 0, 0⟩, ⟨5, 0xC0, 2, 0, 0⟩]
        [⟨5, 0xC0, 2, 0, 0⟩, ⟨5, 0xC0, 1, 0, 0⟩] ∧
    ([⟨5, 0xC0, 2, 0, 0⟩, ⟨5, 0xC0, 1, 0, 0⟩] : List TrackEvent) ≠
      [⟨5, 0xC0, 1, 0, 0⟩, ⟨5, 0xC0, 2, 0, 0⟩] := by
  refine ⟨by decide, ⟨List.Perm.swap _ _ _, by decide⟩, by decide⟩

/-- C8 (amended): sorting is idempotent in the sense the qsort contract can
guarantee: an already-sorted event sequence is itself a valid result of
sorting it again.  (The contract does not force qsort to return it
verbatim; see the counterexample.) -/
theorem c8_sorted_is_valid_resort (l : List TrackEvent)
    (h : l.Pairwise (fun a b => compare_events a b ≤ 0)) : IsQsortOutput l l :=
  ⟨List.Perm.refl l, h⟩

/-- C8 witness: a concrete sorted sequence is a valid output of re-sorting
itself. -/
theorem c8_witness :
    IsQsortOutput [⟨0, 0x80, 60, 0, 0⟩, ⟨7, 0x90, 60, 100, 0⟩]
      [⟨0, 0x80, 60, 0, 0⟩, ⟨7, 0x90, 60, 100, 0⟩] :=
  c8_sorted_is_valid_resort [⟨0, 0x80, 60, 0, 0⟩, ⟨7, 0x90, 60, 100, 0⟩] (by decide)

theorem first_musical_event_time_cases (evs : List TrackEvent) :
    first_musical_event_time evs = 0 ∨
      ∃ e ∈ evs, first_musical_event_time evs = e.absolute_time := by
  induction evs with
  | nil => left; rfl
  | cons e rest ih =>
    by_cases he : e.status ≠ 0xFF
    · right
      exact ⟨e, by simp, by simp [first_musical_event_time, he]⟩
    · rcases ih with h | ⟨e', he', hval⟩
      · left
        simpa [first_musical_event_time, he] using h
      · right
        exact ⟨e', by simp [he'], by simpa [first_musical_event_time, he] using hval⟩

theorem time_le_total_of_sorted {evs : List TrackEvent}
    (hsort : evs.Pairwise (fun a b => a.absolute_time ≤ b.absolute_time)) :
    ∀ e ∈ evs, e.absolute_time ≤ total_song_time evs := by
  intro e he
  obtain ⟨i, hi, hie⟩ := List.mem_iff_getElem.mp he
  have hne : evs ≠ [] := by rintro rfl; simp at hi
  have hlast : evs.length - 1 < evs.length := by
    have := List.length_pos.mpr hne
    omega
  unfold total_song_time
  rw [List.getD_eq_getElem _ _ hlast]
  by_cases hilast : i = evs.length - 1
  · subst hilast
    rw [hie]
  · have hlt : i < evs.length - 1 := by omega
    have hp := (List.pairwise_iff_get.mp hsort) ⟨i, hi⟩ ⟨evs.length - 1, hlast⟩ hlt
    rw [List.get_eq_getElem, List.get_eq_getElem] at hp
    rw [← hie]
    exact hp

theorem total_song_time_bound {evs : List TrackEvent}
    (hb : ∀ e ∈ evs, e.absolute_time < U32) : total_song_time evs < U32 := by
  unfold total_song_time
  rcases Nat.eq_zero_or_pos evs.length with h | h
  · rw [List.length_eq_zero] at h
    subst h
    decide
  · have hlast : evs.length - 1 < evs.length := by omega
    rw [List.getD_eq_getElem _ _ hlast]
    exact hb _ (List.getElem_mem hlast)

/-- C2: if no Set Tempo meta event was recorded the output tempo track is
empty; with at least one recorded, the output is exactly two entries whose
`mspb` both equal the first recorded tempo's `mspb`, with entry 1's
`step_time` the first non-meta event's absolute time and entry 2's
`step_time` the last sorted event's absolute time minus that. -/
theorem c2_tempo_synthesis (tempos : List SeqTempoEvent) (evs : List TrackEvent)
    (hsort : evs.Pairwise (fun a b => a.absolute_time ≤ b.absolute_time))
    (hb : ∀ e ∈ evs, e.absolute_time < U32) :
    (tempos = [] → rebuildTempoTrack tempos evs = []) ∧
    (∀ t0 ts, tempos = t0 :: ts →
      rebuildTempoTrack tempos evs =
        [⟨first_musical_event_time evs, t0.mspb⟩,
         ⟨total_song_time evs - first_musical_event_time evs, t0.mspb⟩]) := by
  have hle : first_musical_event_time evs ≤ total_song_time evs := by
    rcases first_musical_event_time_cases evs with h | ⟨e, he, hval⟩
    · omega
    · rw [hval]
      exact time_le_total_of_sorted hsort e he
  constructor
  · rintro rfl
    rfl
  · rintro t0 ts rfl
    unfold rebuildTempoTrack
    rw [u32sub_eq_sub hle (total_song_time_bound hb)]

/-- C2 witness: a track ending at time 480 whose first non-meta event is at
time 0, with one recorded tempo, yields the two entries `⟨0, m⟩` and
`⟨480, m⟩`. -/
theorem c2_witness :
    rebuildTempoTrack [⟨0, 500000⟩] [⟨0, 0x90, 60, 100, 480⟩, ⟨480, 0xB0, 7, 64, 0⟩] =
      [⟨0, 500000⟩, ⟨480, 500000⟩] := by
  have h := (c2_tempo_synthesis [⟨0, 500000⟩]
    [⟨0, 0x90, 60, 100, 480⟩, ⟨480, 0xB0, 7, 64, 0⟩]
    (by decide) (by decide)).2 ⟨0, 500000⟩ [] rfl
  rw [h]
  decide

/-- C7: the SEQ header always carries `resolution` = MIDI division,
`num_tempo_events` = the final tempo entry count, `data_offset` =
`8 + count*8`, and `tempo_loop_offset` = 16 when the count is positive and 0
otherwise; in particular a source with no recorded Set Tempo events yields
count 0 and loop offset 0. -/
theorem c7_seq_header (division : Nat) (tempos : List SeqTempoEvent)
    (evs : List TrackEvent) (hdiv : division < 65536) :
    (writeSeqHeader division (rebuildTempoTrack tempos evs).length =
      { resolution := division,
        num_tempo_events := (rebuildTempoTrack tempos evs).length,
        data_offset := 8 + (rebuildTempoTrack tempos evs).length * 8,
        tempo_loop_offset :=
          if (rebuildTempoTrack tempos evs).length > 0 then 16 else 0 }) ∧
    (tempos = [] → (rebuildTempoTrack tempos evs).length = 0 ∧
      (writeSeqHeader division (rebuildTempoTrack tempos evs).length).tempo_loop_offset = 0) := by
  have hlen : (rebuildTempoTrack tempos evs).length = 0 ∨
      (rebuildTempoTrack tempos evs).length = 2 := by
    cases tempos <;> simp [rebuildTempoTrack]
  constructor
  · rcases hlen with h | h <;> rw [h] <;>
      simp [writeSeqHeader, Nat.mod_eq_of_lt hdiv] <;> norm_num
  · rintro rfl
    refine ⟨rfl, ?_⟩
    simp [writeSeqHeader, rebuildTempoTrack]

/-- C7 witness: division 480 with one recorded tempo gives the header
`⟨480, 2, 24, 16⟩`; with none, the loop offset is 0. -/
theorem c7_witness :
    writeSeqHeader 480 (rebuildTempoTrack [⟨0, 500000⟩] []).length =
      { resolution := 480, num_tempo_events := 2, data_offset := 24,
        tempo_loop_offset := 16 } := by
  have h := (c7_seq_header 480 [⟨0, 500000⟩] [] (by norm_num)).1
  rw [h]
  decide

theorem modifyIdx_length (l : List TrackEvent) (n : Nat) (f : TrackEvent → TrackEvent) :
    (modifyIdx l n f).length = l.length := by
  induction l generalizing n with
  | nil => rfl
  | cons e rest ih =>
    cases n with
    | zero => rfl
    | succ n => simp [modifyIdx, ih]

theorem getD_modifyIdx_ne (l : List TrackEvent) {m n : Nat} (h : m ≠ n)
    (f : TrackEvent → TrackEvent) :
    (modifyIdx l n f).getD m default = l.getD m default := by
  induction l generalizing m n with
  | nil => rfl
  | cons e rest ih =>
    cases n with
    | zero =>
      cases m with
      | zero => omega
      | succ m => simp [modifyIdx]
    | succ n =>
      cases m with
      | zero => simp [modifyIdx]
      | succ m =>
        simp only [modifyIdx, List.getD_cons_succ]
        exact ih (by omega)

theorem getD_modifyIdx_self (l : List TrackEvent) {n : Nat} (h : n < l.length)
    (f : TrackEvent → TrackEvent) :
    (modifyIdx l n f).getD n default = f (l.getD n default) := by
  induction l generalizing n with
  | nil => simp at h
  | cons e rest ih =>
    cases n with
    | zero => simp [modifyIdx]
    | succ n =>
      simp only [modifyIdx, List.getD_cons_succ]
      exact ih (by simpa using h)

theorem gateRunFrom_add (a b : Nat) (st : GateState) (s : Nat) :
    gateRunFrom st s (a + b) = gateRunFrom (gateRunFrom st s a) (s + a) b := by
  induction a generalizing st s with
  | zero => simp [gateRunFrom]
  | succ a ih =>
    rw [show a + 1 + b = (a + b) + 1 from by omega]
    show gateRunFrom (gateStep st s) (s + 1) (a + b) = _
    rw [ih]
    rw [show s + 1 + a = s + (a + 1) from by omega]
    rfl

theorem gateInv_mono {evs0 : List TrackEvent} {k : Nat} {st : GateState}
    (h : GateInv evs0 k st) : GateInv evs0 (k + 1) st := by
  obtain ⟨h1, h2, h3⟩ := h
  refine ⟨h1, fun m hm => h2 m (by omega), fun p i hpi => ?_⟩
  obtain ⟨a, b, c, d2, e2⟩ := h3 p i hpi
  exact ⟨by omega, b, c, d2, e2⟩

theorem gateInv_step {evs0 : List TrackEvent} {k : Nat} {st : GateState}
    (h : GateInv evs0 k st) : GateInv evs0 (k + 1) (gateStep st k) := by
  obtain ⟨h1, h2, h3⟩ := h
  have he : st.events.getD k default = evs0.getD k default := h2 k le_rfl
  unfold gateStep
  rw [he]
  by_cases hb1 : (evs0.getD k default).status &&& 0xF0 = 0x90 ∧ (evs0.getD k default).data2 > 0
  · rw [if_pos hb1]
    cases htbl : st.tbl ((evs0.getD k default).status &&& 0x0F, (evs0.getD k default).data1) with
    | some prev =>
      obtain ⟨hpk, hpe, hps, hpn, hpv⟩ := h3 _ _ htbl
      refine ⟨by simp [modifyIdx_length, h1], ?_, ?_⟩
      · intro m hm
        rw [getD_modifyIdx_ne _ (by omega)]
        exact h2 m (by omega)
      · intro p i hpi
        simp only at hpi
        by_cases hps2 : p = ((evs0.getD k default).status &&& 0x0F, (evs0.getD k default).data1)
        · rw [if_pos hps2] at hpi
          obtain rfl : k = i := by injection hpi
          refine ⟨by omega, ?_, ?_, hb1.1, hb1.2⟩
          · rw [getD_modifyIdx_ne _ (by omega)]
            exact he
          · rw [hps2]
            rfl
        · rw [if_neg hps2] at hpi
          obtain ⟨hik, hie, his, hin, hiv⟩ := h3 _ _ hpi
          have hiprev : i ≠ prev := by
            intro hh
            subst hh
            exact hps2 (his ▸ hps ▸ rfl)
          refine ⟨by omega, ?_, his, hin, hiv⟩
          rw [getD_modifyIdx_ne _ hiprev]
          exact hie
    | none =>
      refine ⟨h1, fun m hm => h2 m (by omega), ?_⟩
      intro p i hpi
      simp only at hpi
      by_cases hps2 : p = ((evs0.getD k default).status &&& 0x0F, (evs0.getD k default).data1)
      · rw [if_pos hps2] at hpi
        obtain rfl : k = i := by injection hpi
        refine ⟨by omega, he, ?_, hb1.1, hb1.2⟩
        rw [hps2]
        rfl
      · rw [if_neg hps2] at hpi
        obtain ⟨hik, hie, his, hin, hiv⟩ := h3 _ _ hpi
        exact ⟨by omega, hie, his, hin, hiv⟩
  · rw [if_neg hb1]
    by_cases hb2 : (evs0.getD k default).status &&& 0xF0 = 0x80 ∨
        ((evs0.getD k default).status &&& 0xF0 = 0x90 ∧ (evs0.getD k default).data2 = 0)
    · rw [if_pos hb2]
      cases htbl : st.tbl ((evs0.getD k default).status &&& 0x0F, (evs0.getD k default).data1) with
      | some onIdx =>
        obtain ⟨hok, hoe, hos, hon, hov⟩ := h3 _ _ htbl
        refine ⟨by simp [modifyIdx_length, h1], ?_, ?_⟩
        · intro m hm
          rw [getD_modifyIdx_ne _ (by omega), getD_modifyIdx_ne _ (by omega)]
          exact h2 m (by omega)
        · intro p i hpi
          simp only at hpi
          by_cases hps2 : p = ((evs0.getD k default).status &&& 0x0F, (evs0.getD k default).data1)
          · rw [if_pos hps2] at hpi
            exact absurd hpi (by simp)
          · rw [if_neg hps2] at hpi
            obtain ⟨hik, hie, his, hin, hiv⟩ := h3 _ _ hpi
            have hione : i ≠ onIdx := by
              intro hh
              subst hh
              exact hps2 (his ▸ hos ▸ rfl)
            refine ⟨by omega, ?_, his, hin, hiv⟩
            rw [getD_modifyIdx_ne _ (by omega), getD_modifyIdx_ne _ hione]
            exact hie
      | none => exact gateInv_mono ⟨h1, h2, h3⟩
    · rw [if_neg hb2]
      exact gateInv_mono ⟨h1, h2, h3⟩

theorem gateInv_runFrom {evs0 : List TrackEvent} (c : Nat) :
    ∀ (s : Nat) (st : GateState), GateInv evs0 s st →
      GateInv evs0 (s + c) (gateRunFrom st s c) := by
  induction c with
  | zero => intro s st h; simpa using h
  | succ c ih =>
    intro s st h
    have hnext := gateInv_step h
    have hrun := ih (s + 1) (gateStep st s) hnext
    rw [show s + (c + 1) = (s + 1) + c from by omega]
    exact hrun

theorem gateStep_preserves_nonactive {st : GateState} {s m : Nat} (hms : m < s)
    (htbl : ∀ p, st.tbl p ≠ some m) :
    (gateStep st s).events.getD m default = st.events.getD m default ∧
      ∀ p, (gateStep st s).tbl p ≠ some m := by
  unfold gateStep
  by_cases hb1 : (st.events.getD s default).status &&& 0xF0 = 0x90 ∧
      (st.events.getD s default).data2 > 0
  · rw [if_pos hb1]
    cases htl : st.tbl ((st.events.getD s default).status &&& 0x0F,
        (st.events.getD s default).data1) with
    | some prev =>
      have hpm : m ≠ prev := by
        intro hh
        subst hh
        exact htbl _ htl
      refine ⟨getD_modifyIdx_ne _ hpm _, ?_⟩
      intro p
      simp only
      split
      · intro hc
        have : s = m := by injection hc
        omega
      · exact htbl p
    | none =>
      refine ⟨rfl, ?_⟩
      intro p
      simp only
      split
      · intro hc
        have : s = m := by injection hc
        omega
      · exact htbl p
  · rw [if_neg hb1]
    by_cases hb2 : (st.events.getD s default).status &&& 0xF0 = 0x80 ∨
        ((st.events.getD s default).status &&& 0xF0 = 0x90 ∧
          (st.events.getD s default).data2 = 0)
    · rw [if_pos hb2]
      cases htl : st.tbl ((st.events.getD s default).status &&& 0x0F,
          (st.events.getD s default).data1) with
      | some onIdx =>
        have hom : m ≠ onIdx := by
          intro hh
          subst hh
          exact htbl _ htl
        refine ⟨?_, ?_⟩
        · rw [getD_modifyIdx_ne _ (by omega), getD_modifyIdx_ne _ hom]
        · intro p
          simp only
          split
          · simp
          · exact htbl p
      | none => exact ⟨rfl, htbl⟩
    · rw [if_neg hb2]
      exact ⟨rfl, htbl⟩

/-- Once an index is below the cursor and absent from the active table, the
rest of Pass 2 never touches its event. -/
theorem gateRunFrom_freeze (c : Nat) :
    ∀ (st : GateState) (s m : Nat), m < s → (∀ p, st.tbl p ≠ some m) →
      (gateRunFrom st s c).events.getD m default = st.events.getD m default := by
  induction c with
  | zero => intro st s m _ _; rfl
  | succ c ih =>
    intro st s m hms htbl
    obtain ⟨hev, htb⟩ := gateStep_preserves_nonactive hms htbl
    show (gateRunFrom (gateStep st s) (s + 1) c).events.getD m default = _
    rw [ih (gateStep st s) (s + 1) m (by omega) htb, hev]

/-- C1: for a Note-On (velocity > 0) that Pass 2 matches with a later
terminating event (Note-Off, or zero-velocity Note-On) on the same channel
and key — i.e. the active table points at the Note-On when the terminator at
index `j` is processed — whose time is at or after the Note-On's own time,
the gate value encoded in the emitted record for that Note-On, reconstructed
by summing the reductions of gate opcodes 0x8B (8192), 0x8A (4096), 0x89
(2048), 0x88 (512), plus 256 when the control byte's 0x40 flag is set, plus
the final gate byte, equals `noteOffTime - noteOnTime` exactly. -/
theorem c1_gate_value (evs : List TrackEvent) (i j lastTime : Nat)
    (hj : j < evs.length)
    (hterm : (evs.getD j default).status &&& 0xF0 = 0x80 ∨
      ((evs.getD j default).status &&& 0xF0 = 0x90 ∧ (evs.getD j default).data2 = 0))
    (hmatch : (gateRunFrom ⟨evs, fun _ => none⟩ 0 j).tbl (slotOf (evs.getD j default)) = some i)
    (hle : (evs.getD i default).absolute_time ≤ (evs.getD j default).absolute_time)
    (hlt : (evs.getD j default).absolute_time < U32) :
    decodeNoteOnGate (encodeEvent ((gatePass evs).getD i default) lastTime) =
      (evs.getD j default).absolute_time - (evs.getD i default).absolute_time := by
  have hInv : GateInv evs j (gateRunFrom ⟨evs, fun _ => none⟩ 0 j) := by
    have h0 : GateInv evs 0 ⟨evs, fun _ => none⟩ :=
      ⟨rfl, fun _ _ => rfl, fun p i h => by simp at h⟩
    simpa using gateInv_runFrom j 0 _ h0
  obtain ⟨hlen, hunproc, htblinv⟩ := hInv
  obtain ⟨hik, hie, his, hin, hiv⟩ := htblinv _ _ hmatch
  have hb1not : ¬((evs.getD j default).status &&& 0xF0 = 0x90 ∧
      (evs.getD j default).data2 > 0) := by
    rcases hterm with h | h
    · intro hc
      omega
    · intro hc
      omega
  have hstep : gateStep (gateRunFrom ⟨evs, fun _ => none⟩ 0 j) j =
      ⟨modifyIdx (modifyIdx (gateRunFrom ⟨evs, fun _ => none⟩ 0 j).events i
          (fun pe => { pe with
            gate_time := u32sub (evs.getD j default).absolute_time pe.absolute_time })) j
          (fun te => { te with status := 0x00 }),
        fun p => if p = slotOf (evs.getD j default) then none
          else (gateRunFrom ⟨evs, fun _ => none⟩ 0 j).tbl p⟩ := by
    unfold gateStep
    rw [hunproc j le_rfl]
    rw [if_neg hb1not, if_pos hterm]
    rw [show (gateRunFrom ⟨evs, fun _ => none⟩ 0 j).tbl
        ((evs.getD j default).status &&& 0x0F, (evs.getD j default).data1) = some i
      from hmatch]
    rfl
  have hsplit : gatePass evs =
      (gateRunFrom (gateStep (gateRunFrom ⟨evs, fun _ => none⟩ 0 j) j) (j + 1)
        (evs.length - (j + 1))).events := by
    unfold gatePass
    conv_lhs => rw [show evs.length = j + ((evs.length - (j + 1)) + 1) from by omega]
    rw [gateRunFrom_add]
    rw [show 0 + j = j from by omega]
    rfl
  have htblfree : ∀ p, (fun p => if p = slotOf (evs.getD j default) then none
      else (gateRunFrom ⟨evs, fun _ => none⟩ 0 j).tbl p) p ≠ some i := by
    intro p
    simp only
    split
    · simp
    · intro hc
      obtain ⟨-, -, his2, -, -⟩ := htblinv _ _ hc
      rename_i hne
      exact hne (his2 ▸ his ▸ rfl)
  have harr : (gatePass evs).getD i default =
      { evs.getD i default with
        gate_time := u32sub (evs.getD j default).absolute_time
          (evs.getD i default).absolute_time } := by
    rw [hsplit, hstep]
    rw [gateRunFrom_freeze _ _ _ _ (by omega) htblfree]
    show (modifyIdx (modifyIdx _ i _) j _).getD i default = _
    rw [getD_modifyIdx_ne _ (show i ≠ j from by omega)]
    rw [getD_modifyIdx_self _ (show i < (gateRunFrom ⟨evs, fun _ => none⟩ 0 j).events.length
      from by rw [hlen]; omega)]
    rw [hie]
  rw [harr]
  rw [decodeNoteOnGate_encodeEvent _ _ (by exact hin)]
  exact u32sub_eq_sub hle hlt

/-- C1 witness: a Note-On at time 0 matched by the Note-Off at time 480 on
the same channel and key has its emitted gate decode to 480. -/
theorem c1_witness :
    decodeNoteOnGate (encodeEvent
      ((gatePass [⟨0, 0x90, 60, 100, 0⟩, ⟨480, 0x80, 60, 64, 0⟩]).getD 0 default) 0) = 480 := by
  have h := c1_gate_value [⟨0, 0x90, 60, 100, 0⟩, ⟨480, 0x80, 60, 64, 0⟩] 0 1 0
    (by norm_num) (Or.inl (by decide)) (by decide) (by decide) (by decide)
  exact h.trans (by decide)

/-- C10: a Note-Off (status nibble 0x80) with no active matching Note-On
when Pass 2 processes it (an orphan) keeps its original status, survives to
the encoder (its status is nonzero, so the writer's removal guard skips
nothing), and is emitted through the generic branch: delta chunk opcodes,
0x8C bytes, the raw status byte, only its first data byte (`data1`; the
velocity byte `data2` appears nowhere in the record), and the remaining
delta byte. -/
theorem c10_orphan_note_off (evs : List TrackEvent) (j lastTime : Nat)
    (hj : j < evs.length)
    (hoff : (evs.getD j default).status &&& 0xF0 = 0x80)
    (horph : (gateRunFrom ⟨evs, fun _ => none⟩ 0 j).tbl (slotOf (evs.getD j default)) = none) :
    (gatePass evs).getD j default = evs.getD j default ∧
    (evs.getD j default).status ≠ 0 ∧
    encodeEvent (evs.getD j default) lastTime =
      List.replicate (u32sub (evs.getD j default).absolute_time lastTime / 0x1000) 0x8F ++
      List.replicate (u32sub (evs.getD j default).absolute_time lastTime % 0x1000 / 0x800)
        0x8E ++
      List.replicate
        (u32sub (evs.getD j default).absolute_time lastTime % 0x1000 % 0x800 / 0x200) 0x8D ++
      List.replicate
        (u32sub (evs.getD j default).absolute_time lastTime % 0x1000 % 0x800 % 0x200 / 0x100)
        0x8C ++
      [fputcByte (evs.getD j default).status, fputcByte (evs.getD j default).data1,
        fputcByte (u32sub (evs.getD j default).absolute_time lastTime
          % 0x1000 % 0x800 % 0x200 % 0x100)] := by
  have hInv : GateInv evs j (gateRunFrom ⟨evs, fun _ => none⟩ 0 j) := by
    have h0 : GateInv evs 0 ⟨evs, fun _ => none⟩ :=
      ⟨rfl, fun _ _ => rfl, fun p i h => by simp at h⟩
    simpa using gateInv_runFrom j 0 _ h0
  obtain ⟨hlen, hunproc, htblinv⟩ := hInv
  have hb1not : ¬((evs.getD j default).status &&& 0xF0 = 0x90 ∧
      (evs.getD j default).data2 > 0) := by
    intro hc
    omega
  have hstep : gateStep (gateRunFrom ⟨evs, fun _ => none⟩ 0 j) j =
      gateRunFrom ⟨evs, fun _ => none⟩ 0 j := by
    unfold gateStep
    rw [hunproc j le_rfl]
    rw [if_neg hb1not, if_pos (Or.inl hoff)]
    rw [show (gateRunFrom ⟨evs, fun _ => none⟩ 0 j).tbl
        ((evs.getD j default).status &&& 0x0F, (evs.getD j default).data1) = none
      from horph]
  have hsplit : gatePass evs =
      (gateRunFrom (gateStep (gateRunFrom ⟨evs, fun _ => none⟩ 0 j) j) (j + 1)
        (evs.length - (j + 1))).events := by
    unfold gatePass
    conv_lhs => rw [show evs.length = j + ((evs.length - (j + 1)) + 1) from by omega]
    rw [gateRunFrom_add]
    rw [show 0 + j = j from by omega]
    rfl
  have htblfree : ∀ p, (gateRunFrom ⟨evs, fun _ => none⟩ 0 j).tbl p ≠ some j := by
    intro p hc
    obtain ⟨hlt2, -, -, -, -⟩ := htblinv _ _ hc
    omega
  refine ⟨?_, ?_, ?_⟩
  · rw [hsplit, hstep]
    rw [gateRunFrom_freeze _ _ _ _ (by omega) htblfree]
    exact hunproc j le_rfl
  · intro hc
    rw [hc] at hoff
    simp at hoff
  · have hnot90 : ¬(evs.getD j default).status &&& 0xF0 = 0x90 := by omega
    have hnotB0A0 : ¬((evs.getD j default).status &&& 0xF0 = 0xB0 ∨
        (evs.getD j default).status &&& 0xF0 = 0xA0) := by omega
    have hnotE0 : ¬(evs.getD j default).status &&& 0xF0 = 0xE0 := by omega
    simp only [encodeEvent, if_neg hnot90, if_neg hnotB0A0, if_neg hnotE0,
      write_large_delta_events_closed, chunkLoop_closed _ _ _ (show 0 < 0x100 by norm_num)]
    simp [List.append_assoc]

/-- C10 witness: the orphan Note-Off `⟨100, 0x80, 60, 64, 0⟩` survives Pass 2
unchanged and its record is 0x80, key 60, delta 100 — no velocity byte. -/
theorem c10_witness :
    (gatePass [⟨100, 0x80, 60, 64, 0⟩]).getD 0 default =
      (⟨100, 0x80, 60, 64, 0⟩ : TrackEvent) ∧
    encodeEvent (⟨100, 0x80, 60, 64, 0⟩ : TrackEvent) 0 = [0x80, 60, 100] := by
  have h := c10_orphan_note_off [⟨100, 0x80, 60, 64, 0⟩] 0 0
    (by norm_num) (by decide) (by decide)
  exact ⟨h.1.trans (by decide), h.2.2.trans (by decide)⟩
